import Mathlib

/-!
Verification development for the `python-controllino` client
(`src/controllino/controllino.py` and `src/controllino/_id.py`).

The development shallowly embeds the command/reply correlation core:

* the JSON value model and the wire codec (`json.dumps` with its default
  separators and `ensure_ascii=True` escaping, `json.loads`, and the
  CR-LF framing of `_MessageThread._run_impl` and `_encode`);
* the job-id pool (`_id.IdManager` / `_id.Id`);
* the command family (`Command`, `CmdGetSignal`, ..., `CmdLogSignal`)
  with its futures and `update` protocol;
* the receive path (`_MessageThread._receive`, `_run_impl`, `run`) and
  the submission path (`Base.submit`).

Byte strings are modelled as `List Char`: every frame produced by the
encoder is pure ASCII (`ensure_ascii`), so characters and bytes
coincide on all data handled by the theorems.  Python exceptions are
modelled with `Except`/`Option String`: a `some msg`/`.error msg`
result is an exception propagating out of the modelled function.
-/

namespace Controllino

/-- JSON values as produced by `json.loads` on frames of this protocol.
Numbers are modelled as integers: the protocol's numeric fields (`job`,
`level`, `period`, `time`, `value`) are exercised with integers in this
development. -/
inductive Json where
  | null
  | bool (b : Bool)
  | int (n : Int)
  | str (s : String)
  | arr (elems : List Json)
  | obj (fields : List (String × Json))

/-- Python `dict.__getitem__`/`dict.get` on a decoded JSON object: first
binding of the key, `none` when the key is absent (or the value is not a
dict, in which case the Python callers raise; see the call sites). -/
def lookupField : List (String × Json) → String → Option Json
  | [], _ => none
  | (k, v) :: rest, key => if k = key then some v else lookupField rest key

/-- Field access on a decoded reply. -/
def Json.lookup : Json → String → Option Json
  | .obj fs, key => lookupField fs key
  | _, _ => none

/-- Python truthiness of a JSON-decoded value (`if done:` and
`if cmd.update(reply):`). -/
def Json.truthy : Json → Bool
  | .null => false
  | .bool b => b
  | .int n => n != 0
  | .str s => s != ""
  | .arr xs => !xs.isEmpty
  | .obj fs => !fs.isEmpty

/-- Python `int.__eq__` against a JSON-decoded value, used by
`_receive`'s `each.job.value == job` (a Python `bool` equals its
numeric value). -/
def pyIntEq (n : Int) : Json → Bool
  | .int m => n == m
  | .bool b => n == (if b then 1 else 0)
  | _ => false

/-- Python `str.__eq__` against a JSON-decoded value, used by the
`command_type == ...` comparisons in `Command._error`/`update`. -/
def pyStrEq (j : Json) (s : String) : Bool :=
  match j with
  | .str t => t == s
  | _ => false

/- Wire codec.  `_encode` is `json.dumps(data, cls=_id.JsonEncoder)`
plus the CR LF delimiter, UTF-8 encoded; `json.dumps` runs with default
separators `', '` / `': '` and `ensure_ascii=True`. -/

/-- Lowercase hex digit, as emitted by Python's `\uxxxx` escapes. -/
def hexDigitChar (n : Nat) : Char :=
  if n < 10 then Char.ofNat (48 + n) else Char.ofNat (87 + n)

/-- Four lowercase hex digits of `n % 0x10000`, most significant first. -/
def toHex4 (n : Nat) : List Char :=
  [hexDigitChar (n / 4096 % 16), hexDigitChar (n / 256 % 16),
   hexDigitChar (n / 16 % 16), hexDigitChar (n % 16)]

/-- Python `json.encoder.py_encode_basestring_ascii` on one character:
short escapes for the JSON control escapes, `\uxxxx` (with surrogate
pairs above the BMP) for everything outside printable ASCII. -/
def escapeChar (c : Char) : List Char :=
  if c = '\\' then ['\\', '\\']
  else if c = '"' then ['\\', '"']
  else if c = '\x08' then ['\\', 'b']
  else if c = '\x0c' then ['\\', 'f']
  else if c = '\n' then ['\\', 'n']
  else if c = '\r' then ['\\', 'r']
  else if c = '\t' then ['\\', 't']
  else if c.toNat < 0x20 ∨ 0x7e < c.toNat then
    if c.toNat < 0x10000 then
      '\\' :: 'u' :: toHex4 c.toNat
    else
      ('\\' :: 'u' :: toHex4 (0xd800 + (c.toNat - 0x10000) / 1024)) ++
      ('\\' :: 'u' :: toHex4 (0xdc00 + (c.toNat - 0x10000) % 1024))
  else [c]

/-- JSON string literal for `s` (quotes plus escaped content). -/
def dumpString (s : String) : List Char :=
  '"' :: (s.data.map escapeChar).flatten ++ ['"']

/-- Decimal digits of a natural number, as printed by Python. -/
def natRepr (n : Nat) : List Char :=
  if n = 0 then ['0']
  else (Nat.digits 10 n).reverse.map fun d => Char.ofNat (48 + d)

/-- Python `repr` of an integer (JSON number syntax). -/
def intRepr (n : Int) : List Char :=
  if n < 0 then '-' :: natRepr (-n).toNat else natRepr n.toNat

mutual

/-- `json.dumps` with the default separators and `ensure_ascii=True`. -/
def dumpJson : Json → List Char
  | .null => "null".data
  | .bool true => "true".data
  | .bool false => "false".data
  | .int n => intRepr n
  | .str s => dumpString s
  | .arr xs => '[' :: dumpElems xs ++ [']']
  | .obj fs => '\x7b' :: dumpFields fs ++ ['\x7d']

/-- Array items joined by `', '`. -/
def dumpElems : List Json → List Char
  | [] => []
  | [x] => dumpJson x
  | x :: y :: rest => dumpJson x ++ ", ".data ++ dumpElems (y :: rest)

/-- Object members `"key": value` joined by `', '`. -/
def dumpFields : List (String × Json) → List Char
  | [] => []
  | [(k, v)] => dumpString k ++ ": ".data ++ dumpJson v
  | (k, v) :: y :: rest =>
    dumpString k ++ ": ".data ++ dumpJson v ++ ", ".data ++ dumpFields (y :: rest)

end

/-- `_encode`: the serialized message followed by the CR LF delimiter. -/
def encode (data : Json) : List Char :=
  dumpJson data ++ ['\r', '\n']

/- Receive-side decoding (`json.loads`).  The decoder below accepts the
JSON grammar restricted to integer numbers (see `Json`); on every input
appearing in this development it agrees with Python's strict decoder. -/

/-- JSON whitespace skipped by the decoder. -/
def skipWs : List Char → List Char
  | [] => []
  | c :: rest =>
    if c = ' ' ∨ c = '\t' ∨ c = '\n' ∨ c = '\r' then skipWs rest else c :: rest

/-- Value of one hex digit. -/
def hexVal (c : Char) : Option Nat :=
  if '0' ≤ c ∧ c ≤ '9' then some (c.toNat - 48)
  else if 'a' ≤ c ∧ c ≤ 'f' then some (c.toNat - 87)
  else if 'A' ≤ c ∧ c ≤ 'F' then some (c.toNat - 55)
  else none

/-- Value of a `\uxxxx` escape. -/
def hex4Val (h1 h2 h3 h4 : Char) : Option Nat :=
  match hexVal h1, hexVal h2, hexVal h3, hexVal h4 with
  | some a, some b, some c, some d => some (4096 * a + 256 * b + 16 * c + d)
  | _, _, _, _ => none

/-- Decoded character of a short escape `\<e>`. -/
def escSimple (e : Char) : Option Char :=
  if e = '"' then some '"'
  else if e = '\\' then some '\\'
  else if e = '/' then some '/'
  else if e = 'b' then some '\x08'
  else if e = 'f' then some '\x0c'
  else if e = 'n' then some '\n'
  else if e = 'r' then some '\r'
  else if e = 't' then some '\t'
  else none

/-- Four hex digits at the head of the input. -/
def parseU16 : List Char → Option (Nat × List Char)
  | h1 :: h2 :: h3 :: h4 :: rest => (hex4Val h1 h2 h3 h4).map fun n => (n, rest)
  | _ => none

/-- A `\uxxxx` escape after the `u`, with surrogate pairs recombined
exactly as by Python's decoder. -/
def parseUEscape (cs : List Char) : Option (Char × List Char) :=
  match parseU16 cs with
  | none => none
  | some (n, rest3) =>
    if 0xd800 ≤ n ∧ n < 0xdc00 then
      match rest3 with
      | '\\' :: 'u' :: rest4 =>
        match parseU16 rest4 with
        | none => none
        | some (m, rest5) =>
          if 0xdc00 ≤ m ∧ m < 0xe000 then
            some (Char.ofNat (0x10000 + (n - 0xd800) * 1024 + (m - 0xdc00)), rest5)
          else none
      | _ => none
    else if 0xdc00 ≤ n ∧ n < 0xe000 then none
    else some (Char.ofNat n, rest3)

/-- Decode one escape sequence (the input starts right after the
backslash): the decoded character and the remaining input. -/
def parseEscape : List Char → Option (Char × List Char)
  | [] => none
  | e :: rest =>
    if e = 'u' then parseUEscape rest
    else (escSimple e).map fun d => (d, rest)

/-- Body of a JSON string literal after the opening quote: the decoded
characters and the input following the closing quote.  Fuelled by an
upper bound on the number of decoded characters; every character
consumes at least one input character, so the callers' fuel
`input.length + 1` never runs out. -/
def parseStringBody : Nat → List Char → Option (List Char × List Char)
  | 0, _ => none
  | _ + 1, [] => none
  | fuel + 1, c :: rest =>
    if c = '"' then some ([], rest)
    else if c = '\\' then
      match parseEscape rest with
      | some (d, rest2) => (parseStringBody fuel rest2).map fun p => (d :: p.1, p.2)
      | none => none
    else if c.toNat < 0x20 then none
    else (parseStringBody fuel rest).map fun p => (c :: p.1, p.2)

/-- Maximal leading run of decimal digits. -/
def takeDigits : List Char → List Char × List Char
  | [] => ([], [])
  | c :: rest =>
    if c.isDigit then
      let (ds, r) := takeDigits rest
      (c :: ds, r)
    else ([], c :: rest)

/-- Numeric value of a digit run (most significant first). -/
def digitsVal (ds : List Char) : Nat :=
  ds.foldl (fun a c => 10 * a + (c.toNat - 48)) 0

/-- Consume an expected literal character sequence at the head of the
input. -/
def eatLit : List Char → List Char → Option (List Char)
  | [], cs => some cs
  | _ :: _, [] => none
  | p :: ps, c :: cs => if c = p then eatLit ps cs else none

mutual

/-- One JSON value at the head of the input (fuelled on nesting depth);
returns the value and the remaining input. -/
def parseValue : Nat → List Char → Option (Json × List Char)
  | 0, _ => none
  | _ + 1, [] => none
  | fuel + 1, c :: rest =>
    if c = 'n' then
      (eatLit ['u', 'l', 'l'] rest).map fun r => (.null, r)
    else if c = 't' then
      (eatLit ['r', 'u', 'e'] rest).map fun r => (.bool true, r)
    else if c = 'f' then
      (eatLit ['a', 'l', 's', 'e'] rest).map fun r => (.bool false, r)
    else if c = '"' then
      (parseStringBody (rest.length + 1) rest).map fun p => (.str (String.mk p.1), p.2)
    else if c = '-' then
      let td := takeDigits rest
      if td.1.isEmpty then none else some (.int (-(digitsVal td.1 : Int)), td.2)
    else if c = '\x7b' then
      match skipWs rest with
      | [] => none
      | c2 :: r2 =>
        if c2 = '\x7d' then some (.obj [], r2)
        else (parseMembers fuel (c2 :: r2)).map fun p => (.obj p.1, p.2)
    else if c = '[' then
      match skipWs rest with
      | [] => none
      | c2 :: r2 =>
        if c2 = ']' then some (.arr [], r2)
        else (parseElems fuel (c2 :: r2)).map fun p => (.arr p.1, p.2)
    else if c.isDigit then
      let td := takeDigits (c :: rest)
      if td.1.isEmpty then none else some (.int (digitsVal td.1 : Int), td.2)
    else none

/-- Nonempty member list of a JSON object, up to and including the
closing brace. -/
def parseMembers : Nat → List Char → Option (List (String × Json) × List Char)
  | 0, _ => none
  | _ + 1, [] => none
  | fuel + 1, c :: rest =>
    if c = '"' then
      match parseStringBody (rest.length + 1) rest with
      | none => none
      | some (k, r1) =>
        match skipWs r1 with
        | [] => none
        | c2 :: r2 =>
          if c2 = ':' then
            match parseValue fuel (skipWs r2) with
            | none => none
            | some (v, r3) =>
              match skipWs r3 with
              | [] => none
              | c3 :: r4 =>
                if c3 = ',' then
                  (parseMembers fuel (skipWs r4)).map fun p =>
                    ((String.mk k, v) :: p.1, p.2)
                else if c3 = '\x7d' then some ([(String.mk k, v)], r4)
                else none
          else none
    else none

/-- Nonempty element list of a JSON array, up to and including the
closing bracket. -/
def parseElems : Nat → List Char → Option (List Json × List Char)
  | 0, _ => none
  | fuel + 1, cs =>
    match parseValue fuel cs with
    | none => none
    | some (v, r1) =>
      match skipWs r1 with
      | [] => none
      | c2 :: r2 =>
        if c2 = ',' then (parseElems fuel (skipWs r2)).map fun p => (v :: p.1, p.2)
        else if c2 = ']' then some ([v], r2)
        else none

end

/-- `json.loads` on one framed segment: a single JSON document
surrounded by optional whitespace; anything else raises
`json.JSONDecodeError` (modelled by `.error`). -/
def loads (cs : List Char) : Except String Json :=
  match parseValue (cs.length + 1) (skipWs cs) with
  | none => Except.error "JSONDecodeError"
  | some (j, rest) =>
    match skipWs rest with
    | [] => Except.ok j
    | _ => Except.error "JSONDecodeError: extra data"

/-- `buffer.split(DELIM)` followed by `chunks.pop(-1)`: the complete
CR-LF-terminated segments (delimiters stripped) and the trailing
incomplete remainder. -/
def splitCRLF : List Char → List (List Char) × List Char
  | [] => ([], [])
  | [c] => ([], [c])
  | c :: d :: rest =>
    if c = '\r' ∧ d = '\n' then
      let (cs, last) := splitCRLF rest
      ([] :: cs, last)
    else
      let (cs, last) := splitCRLF (d :: rest)
      match cs with
      | [] => ([], c :: last)
      | s :: ss => ((c :: s) :: ss, last)

/-- The head of the input, if any, is not a decimal digit (such input
stops `takeDigits`). -/
def headNotDigit : List Char → Prop
  | [] => True
  | c :: _ => c.isDigit = false

/-- The head of the input, if any, is not JSON whitespace (such input
is a fixpoint of `skipWs`). -/
def headNotWs : List Char → Prop
  | [] => True
  | c :: _ => ¬(c = ' ' ∨ c = '\t' ∨ c = '\n' ∨ c = '\r')

/- `_id.IdManager` and `_id.Id`.  An `Id` wraps its integer value and a
reference to its manager; `Id.destroy` is `manager.put(value)`.  Here
commands store the integer value directly and destruction is an
explicit `IdManager.put`. -/

/-- `IdManager`: `_size` and the `_queue` of available ids. -/
structure IdManager where
  size : Nat
  queue : List Nat

/-- `IdManager.__init__` with `size` ids (Python default `2**8 - 1`):
the available queue is `list(range(size))`. -/
def IdManager.init (size : Nat) : IdManager :=
  ⟨size, List.range size⟩

/-- `IdManager.pop`: dequeue the front id; `none` models the
`RuntimeError("maximum number of jobs exceeded")` on an empty queue. -/
def IdManager.pop : IdManager → Option (Nat × IdManager)
  | ⟨_, []⟩ => Option.none
  | ⟨sz, v :: rest⟩ => some (v, ⟨sz, rest⟩)

/-- `IdManager.put` (reached through `Id.destroy`): recycle a value at
the back of the queue. -/
def IdManager.put (m : IdManager) (v : Nat) : IdManager :=
  ⟨m.size, m.queue ++ [v]⟩

/- The command family. -/

/-- The command variants (`CmdGetSignal`, ..., `CmdEndLogSignal`) with
their payload fields.  `CmdSetSignal`'s `value` argument is typed `Any`
in Python; it is modelled by the JSON scalars the wire format carries. -/
inductive Scalar where
  | null
  | bool (b : Bool)
  | int (n : Int)
  | str (s : String)

/-- Injection of a scalar payload into the JSON model. -/
def Scalar.toJson : Scalar → Json
  | .null => Json.null
  | .bool b => Json.bool b
  | .int n => Json.int n
  | .str s => Json.str s

inductive CmdKind where
  | getSignal (pin : String)
  | setSignal (pin : String) (level : Scalar)
  | ready
  | setPinMode (pin : String) (mode : String)
  | getPinMode (pin : String)
  | loadPinModes
  | savePinModes
  | resetPinModes
  | triggerPulse (pin : String)
  | logSignal (pin : String) (period : Int)
  | endLogSignal (pin : String)

/-- The `'command'` value of each variant's `_serialize`. -/
def CmdKind.name : CmdKind → String
  | .getSignal _ => "GET_INPUT"
  | .setSignal _ _ => "SET_OUTPUT"
  | .ready => "READY"
  | .setPinMode _ _ => "SET_PIN_MODE"
  | .getPinMode _ => "GET_PIN_MODE"
  | .loadPinModes => "LOAD_PIN_MODES"
  | .savePinModes => "SAVE_PIN_MODES"
  | .resetPinModes => "RESET_PIN_MODES"
  | .triggerPulse _ => "TRIGGER_PULSE"
  | .logSignal _ _ => "LOG_SIGNAL"
  | .endLogSignal _ => "END_LOG_SIGNAL"

/-- The remaining fields of each variant's `_serialize`, in the order
of the Python dict literals. -/
def CmdKind.extraFields : CmdKind → List (String × Json)
  | .getSignal pin => [("pin", .str pin)]
  | .setSignal pin level => [("pin", .str pin), ("level", level.toJson)]
  | .ready => []
  | .setPinMode pin mode => [("pin", .str pin), ("mode", .str mode)]
  | .getPinMode pin => [("pin", .str pin)]
  | .loadPinModes => []
  | .savePinModes => []
  | .resetPinModes => []
  | .triggerPulse pin => [("pin", .str pin)]
  | .logSignal pin period => [("pin", .str pin), ("period", .int period)]
  | .endLogSignal pin => [("pin", .str pin)]

/-- `Command._serialize`: the command dict without the job id. -/
def CmdKind.serializeBody (k : CmdKind) : List (String × Json) :=
  ("command", Json.str k.name) :: k.extraFields

/-- Whether the variant is the streaming `CmdLogSignal` (the only
override of `Command.update`). -/
def CmdKind.isStream : CmdKind → Bool
  | .logSignal _ _ => true
  | _ => false

/-- Result of a `Future`: `set_result()` stores Python `None`,
`CmdGetSignal`/`CmdGetPinMode` store a reply field, `CmdLogSignal`
stores a `TimeSeries(time, values)` named tuple. -/
inductive PyVal where
  | pyNone
  | json (j : Json)
  | timeSeries (time : List Json) (values : List Json)

/-- A `Future`: pending until `set_result` (→ `resolved`) or
`set_error` (→ `failed`, recording the reply carried by the
`ControllinoError`). -/
inductive Future where
  | pending
  | resolved (v : PyVal)
  | failed (reply : Json)

/-- `Future.done()`. -/
def Future.done : Future → Bool
  | .pending => false
  | _ => true

/-- A pending command: its variant, its assigned job id value, its
future(s) and — for `CmdLogSignal` — the sample accumulators.
Non-streaming commands have a single future (`future1`); `future2`,
`time` and `values` exist only on `CmdLogSignal`. -/
structure CmdState where
  kind : CmdKind
  job : Nat
  future1 : Future
  future2 : Future
  time : List Json
  values : List Json

/-- A freshly constructed command with job id assigned (as after
`cmd.job = self._id_manager.pop()` in `submit`). -/
def CmdState.fresh (kind : CmdKind) (job : Nat) : CmdState :=
  ⟨kind, job, .pending, .pending, [], []⟩

/-- `Command.serialize`: `_serialize()` plus the job id.  The
`_id.JsonEncoder` serializes the `Id` object as its wrapped integer
value, so the model stores the integer directly. -/
def CmdState.serialize (c : CmdState) : Json :=
  .obj (c.kind.serializeBody ++ [("job", .int (c.job : Int))])

/-- `Command._error`: if the reply's `command` equals `'ERR_' + name`
or the literal `'ERR_COMMAND_INVALID'`, fail the given future with a
`ControllinoError` carrying the reply and report `true`.  `.error`
models the `KeyError` on a reply without `command`. -/
def forwardError (name : String) (fut : Future) (reply : Json) :
    Except String (Future × Bool) :=
  match reply.lookup "command" with
  | Option.none => Except.error "KeyError: command"
  | some ct =>
    if pyStrEq ct ("ERR_" ++ name) || pyStrEq ct "ERR_COMMAND_INVALID" then
      Except.ok (Future.failed reply, true)
    else
      Except.ok (fut, false)

/-- `Command.update` (default implementation) together with the
variant-specific `_update` overrides: error replies fail the future and
return `True`; an `'RX_' + name` reply resolves the future (with the
reply's `level` for `CmdGetSignal`, `mode` for `CmdGetPinMode`, no
payload otherwise) and returns `True`; any other reply falls through
and returns Python `None` (modelled `Option.none`). -/
def CmdState.updateDefault (c : CmdState) (reply : Json) :
    Except String (CmdState × Option Json) :=
  match forwardError c.kind.name c.future1 reply with
  | .error e => .error e
  | .ok (f1, true) => .ok ({c with future1 := f1}, some (.bool true))
  | .ok (_, false) =>
    match reply.lookup "command" with
    | Option.none => Except.error "KeyError: command"
    | some ct =>
      if pyStrEq ct ("RX_" ++ c.kind.name) then
        match c.kind with
        | .getSignal _ =>
          match reply.lookup "level" with
          | Option.none => Except.error "KeyError: level"
          | some lv =>
            .ok ({c with future1 := .resolved (.json lv)}, some (.bool true))
        | .getPinMode _ =>
          match reply.lookup "mode" with
          | Option.none => Except.error "KeyError: mode"
          | some md =>
            .ok ({c with future1 := .resolved (.json md)}, some (.bool true))
        | _ => .ok ({c with future1 := .resolved .pyNone}, some (.bool true))
      else
        .ok (c, Option.none)

/-- `CmdLogSignal.update`: on the first reply, an error fails the first
future and completes; otherwise the first future resolves with no
payload.  Then an error fails the second future and completes;
otherwise the reply's `(time, value)` sample is appended and, when
`done` is truthy, the second future resolves with the accumulated
`TimeSeries`; the reply's `done` value is returned.  The `KeyError`
raised by a reply missing `time`/`value`/`done` is modelled by
`.error` (the partial list mutation Python performs before such a raise
is unobservable: the exception kills the receive loop). -/
def CmdState.updateLogSignal (c : CmdState) (reply : Json) :
    Except String (CmdState × Option Json) :=
  match
    (if c.future1.done then Except.ok (c, false)
     else
       match forwardError c.kind.name c.future1 reply with
       | .error e => .error e
       | .ok (f1, true) => Except.ok ({c with future1 := f1}, true)
       | .ok (_, false) =>
         Except.ok ({c with future1 := Future.resolved .pyNone}, false)) with
  | .error e => .error e
  | .ok (c1, true) => .ok (c1, some (.bool true))
  | .ok (c1, false) =>
    match forwardError c1.kind.name c1.future2 reply with
    | .error e => .error e
    | .ok (f2, true) => .ok ({c1 with future2 := f2}, some (.bool true))
    | .ok (_, false) =>
      match reply.lookup "time", reply.lookup "value", reply.lookup "done" with
      | some t, some v, some d =>
        let c2 := {c1 with time := c1.time ++ [t], values := c1.values ++ [v]}
        let c3 :=
          if d.truthy then
            {c2 with future2 := .resolved (.timeSeries c2.time c2.values)}
          else c2
        .ok (c3, some d)
      | _, _, _ => Except.error "KeyError: time/value/done"

/-- Dispatch of `update`: `CmdLogSignal` overrides the default. -/
def CmdState.update (c : CmdState) (reply : Json) :
    Except String (CmdState × Option Json) :=
  match c.kind with
  | .logSignal _ _ => c.updateLogSignal reply
  | _ => c.updateDefault reply

/- The receive path (`_MessageThread`). -/

/-- Errors pushed onto the shared error queue by the message thread:
the three `ControllinoError` reports of `_receive` (after which the
loop continues), and `fatal` for an exception reaching the catch-all in
`run` (after which the loop exits). -/
inductive RxError where
  | generalError (reply : Json)
  | outOfTurn (reply : Json)
  | invalidJob (reply : Json)
  | fatal (msg : String)

/-- Structural prefix test on character lists (`str.startswith`). -/
def isPrefixLC : List Char → List Char → Bool
  | [], _ => true
  | _ :: _, [] => false
  | a :: as, b :: bs => a == b && isPrefixLC as bs

/-- Python truthiness of a `Command.update` return value
(`None`/`False`-like values are falsy). -/
def pyTruthy : Option Json → Bool
  | Option.none => false
  | some j => j.truthy

/-- State touched by the message thread: the shared pending list, the
id manager (reached through each command's `Id`), the rolling receive
`_buffer`, and the error queue.  `retired` is an observation device: it
collects the commands removed from `pending`, modelling the references
the submitting caller still holds on their futures. -/
structure RxState where
  pending : List CmdState
  manager : IdManager
  buffer : List Char
  errors : List RxError
  retired : List CmdState

/-- The `next(...)` scan plus indexing of `_receive`: the first pending
command whose `job.value == job` (Python numeric equality), split as
(before, command, after). -/
def findCmd : List CmdState → Json → Option (List CmdState × CmdState × List CmdState)
  | [], _ => Option.none
  | c :: rest, jv =>
    if pyIntEq (c.job : Int) jv then some ([], c, rest)
    else
      match findCmd rest jv with
      | Option.none => Option.none
      | some (pre, x, post) => some (c :: pre, x, post)

/-- `reply.get('job')` as observed by `_receive`: a JSON `null` decodes
to Python `None` and is indistinguishable from an absent key. -/
def jobField (reply : Json) : Option Json :=
  match reply.lookup "job" with
  | some Json.null => Option.none
  | o => o

/-- `_MessageThread._receive`: dispatch one decoded reply.  The second
component is an escaping exception (fatal to the loop); the
`ControllinoError` reports go to `errors` and the function returns
normally. -/
def receive (s : RxState) (reply : Json) : RxState × Option String :=
  match reply.lookup "command" with
  | Option.none => (s, some "KeyError: command")
  | some ct =>
    match jobField reply with
    | Option.none =>
      match ct with
      | .str t =>
        if isPrefixLC "ERROR".data t.data then
          ({s with errors := s.errors ++ [.generalError reply]}, Option.none)
        else
          ({s with errors := s.errors ++ [.outOfTurn reply]}, Option.none)
      | _ => (s, some "AttributeError: startswith")
    | some jv =>
      match findCmd s.pending jv with
      | Option.none =>
        ({s with errors := s.errors ++ [.invalidJob reply]}, Option.none)
      | some (pre, cmd, post) =>
        match cmd.update reply with
        | .error e => (s, some e)
        | .ok (cmd2, ret) =>
          if pyTruthy ret then
            ({s with pending := pre ++ post,
                     manager := s.manager.put cmd2.job,
                     retired := s.retired ++ [cmd2]}, Option.none)
          else
            ({s with pending := pre ++ cmd2 :: post}, Option.none)

/-- The `for each in replies: self._receive(each)` loop; stops at the
first escaping exception. -/
def dispatchAll (s : RxState) : List Json → RxState × Option String
  | [] => (s, Option.none)
  | r :: rs =>
    match receive s r with
    | (s2, Option.none) => dispatchAll s2 rs
    | (s2, some e) => (s2, some e)

/-- The `[json.loads(each) for each in chunks]` comprehension (each
chunk carries its re-appended delimiter); the first
`json.JSONDecodeError` escapes before any reply is dispatched. -/
def parseAll : List (List Char) → Except String (List Json)
  | [] => Except.ok []
  | seg :: rest =>
    match loads (seg ++ ['\r', '\n']) with
    | .error e => .error e
    | .ok j =>
      match parseAll rest with
      | .error e => .error e
      | .ok js => .ok (j :: js)

/-- `_MessageThread._run_impl` on one batch of newly available bytes:
no-op when nothing is waiting; otherwise extend the buffer, split it on
the delimiter, keep the incomplete remainder as the new buffer, decode
every complete segment and dispatch the replies. -/
def runImpl (s : RxState) (incoming : List Char) : RxState × Option String :=
  if incoming.isEmpty then (s, Option.none)
  else
    let (segs, rest) := splitCRLF (s.buffer ++ incoming)
    let s1 := {s with buffer := rest}
    match parseAll segs with
    | .error e => (s1, some e)
    | .ok replies => dispatchAll s1 replies

/-- `_MessageThread.run`: poll cycles fed with successive byte batches.
An exception from `_run_impl` is caught by the catch-all, pushed on the
error queue, and ends the loop (`false`); remaining batches are never
read. -/
def runBatches (s : RxState) : List (List Char) → RxState × Bool
  | [] => (s, true)
  | b :: bs =>
    match runImpl s b with
    | (s2, Option.none) => runBatches s2 bs
    | (s2, some e) => ({s2 with errors := s2.errors ++ [.fatal e]}, false)

/- The submission path (`Base`). -/

/-- The `Base` state touched by `submit`: the shared pending list, the
command queue drained by the send loop, and the id manager. -/
structure BaseState where
  pending : List CmdState
  cmdQueue : List CmdState
  manager : IdManager

/-- `Base.submit`: acquire a job id (`IdManager.pop` raises
`RuntimeError` first, before any mutation), then register the command
as pending and enqueue it for the command thread. -/
def Base.submit (s : BaseState) (kind : CmdKind) : BaseState × Except String Nat :=
  match s.manager.pop with
  | Option.none => (s, Except.error "maximum number of jobs exceeded")
  | some (j, m2) =>
    let cmd := CmdState.fresh kind j
    (⟨s.pending ++ [cmd], s.cmdQueue ++ [cmd], m2⟩, Except.ok j)

/- Job-id pool traces.  A trace interleaves the two operations the
program performs on the pool: `acquire` (a `pop` in `submit`/`open`,
making the popped value live in a pending command) and `release v` (the
`Id.destroy` of a completed command's id).  A `release` of a value not
currently live is excluded — the program destroys an id exactly once,
when its command leaves the pending list. -/

/-- The pool together with the multiset of currently live (issued, not
yet destroyed) id values. -/
structure PoolState where
  manager : IdManager
  live : List Nat

inductive PoolOp where
  | acquire
  | release (v : Nat)

/-- One pool operation.  A failed `pop` (exhausted pool) changes
nothing; a `release` of a non-live value is the excluded double
destroy and changes nothing. -/
def poolStep (s : PoolState) : PoolOp → PoolState
  | .acquire =>
    match s.manager.pop with
    | Option.none => s
    | some (v, m2) => ⟨m2, s.live ++ [v]⟩
  | .release v =>
    if v ∈ s.live then ⟨s.manager.put v, s.live.erase v⟩ else s

/-- A trace of pool operations from a fresh manager of the given size. -/
def poolRun (size : Nat) (ops : List PoolOp) : PoolState :=
  ops.foldl poolStep ⟨IdManager.init size, []⟩

/- Theorems. -/

lemma poolStep_invariant (s : PoolState) (op : PoolOp)
    (h : (s.live ++ s.manager.queue).Nodup) :
    ((poolStep s op).live ++ (poolStep s op).manager.queue).Nodup := by
  cases op with
  | acquire =>
    obtain ⟨⟨sz, q⟩, live⟩ := s
    cases q with
    | nil => simpa [poolStep, IdManager.pop] using h
    | cons v rest =>
      simp only [poolStep, IdManager.pop]
      simpa [List.append_assoc] using h
  | release v =>
    obtain ⟨⟨sz, q⟩, live⟩ := s
    by_cases hv : v ∈ live
    · simp only [poolStep, hv, if_true, IdManager.put]
      refine List.Perm.nodup ?_ h
      refine ((List.perm_cons_erase hv).append_right q).trans ?_
      have h2 := (List.perm_append_singleton v (live.erase v ++ q)).symm
      simpa [List.append_assoc] using h2
    · simp only [poolStep, if_neg hv]
      simpa using h

lemma poolFold_invariant (ops : List PoolOp) :
    ∀ s : PoolState, (s.live ++ s.manager.queue).Nodup →
      ((ops.foldl poolStep s).live ++ (ops.foldl poolStep s).manager.queue).Nodup := by
  induction ops with
  | nil => intro s h; simpa using h
  | cons op rest ih =>
    intro s h
    exact ih (poolStep s op) (poolStep_invariant s op h)

/-- C5: over any sequence of pool acquisitions (`IdManager.pop` on
submit) and releases (`Id.destroy` of a completed command, each issued
id released at most once), the multiset of live job-id values never
contains a duplicate: no two simultaneously outstanding commands carry
the same JobId value. -/
theorem jobId_uniqueness (size : Nat) (ops : List PoolOp) :
    (poolRun size ops).live.Nodup := by
  have h := poolFold_invariant ops ⟨IdManager.init size, []⟩
    (by simpa [IdManager.init] using List.nodup_range size)
  simpa [poolRun] using h.of_append_left

/-- C1: replies are matched to pending commands solely by the `job` id
field.  With two `GET_INPUT` commands pending — A holding JobId 1, B
holding JobId 2, in submission order — dispatching B's reply first and
A's reply second resolves each command's future with the `level` of the
reply whose `job` equals that command's own id: B's future gets `vB`,
A's future gets `vA`, both commands complete and release their ids, and
no error is raised or reported. -/
theorem out_of_order_replies (pinA pinB : String) (vA vB : Json) (mgr : IdManager) :
    receive ⟨[CmdState.fresh (.getSignal pinA) 1, CmdState.fresh (.getSignal pinB) 2],
             mgr, [], [], []⟩
        (.obj [("command", .str "RX_GET_INPUT"), ("pin", .str pinB),
               ("level", vB), ("job", .int 2)])
      = (⟨[CmdState.fresh (.getSignal pinA) 1], mgr.put 2, [], [],
          [⟨.getSignal pinB, 2, .resolved (.json vB), .pending, [], []⟩]⟩,
         Option.none) ∧
    receive ⟨[CmdState.fresh (.getSignal pinA) 1], mgr.put 2, [], [],
             [⟨.getSignal pinB, 2, .resolved (.json vB), .pending, [], []⟩]⟩
        (.obj [("command", .str "RX_GET_INPUT"), ("pin", .str pinA),
               ("level", vA), ("job", .int 1)])
      = (⟨[], (mgr.put 2).put 1, [], [],
          [⟨.getSignal pinB, 2, .resolved (.json vB), .pending, [], []⟩,
           ⟨.getSignal pinA, 1, .resolved (.json vA), .pending, [], []⟩]⟩,
         Option.none) := by
  constructor <;>
    simp [receive, jobField, Json.lookup, lookupField, findCmd, pyIntEq, CmdState.fresh,
          CmdState.update, CmdState.updateDefault, forwardError, pyStrEq,
          CmdKind.name, pyTruthy, Json.truthy]

/-- C2: a streaming `LOG_SIGNAL` command (JobId 1) fed four non-error
replies, of which only the last has `done` true: the first reply
resolves the first future (success, no payload); every reply appends
its `(time, value)` sample in injection order; after each of the three
non-final replies the update is falsy, so the command stays in the
pending table with its id held; only the final reply resolves the
second future — with the accumulated time and value lists in order —
and signals completion, removing the command and releasing JobId 1. -/
theorem log_signal_streaming (pin : String) (period : Int)
    (t0 t1 t2 t3 v0 v1 v2 v3 : Json) (mgr : IdManager) :
    receive ⟨[CmdState.fresh (.logSignal pin period) 1], mgr, [], [], []⟩
        (.obj [("command", .str "RX_LOG_SIGNAL"), ("pin", .str pin), ("job", .int 1),
               ("time", t0), ("value", v0), ("done", .bool false)])
      = (⟨[⟨.logSignal pin period, 1, .resolved .pyNone, .pending, [t0], [v0]⟩],
          mgr, [], [], []⟩, Option.none) ∧
    receive ⟨[⟨.logSignal pin period, 1, .resolved .pyNone, .pending, [t0], [v0]⟩],
             mgr, [], [], []⟩
        (.obj [("command", .str "RX_LOG_SIGNAL"), ("pin", .str pin), ("job", .int 1),
               ("time", t1), ("value", v1), ("done", .bool false)])
      = (⟨[⟨.logSignal pin period, 1, .resolved .pyNone, .pending, [t0, t1], [v0, v1]⟩],
          mgr, [], [], []⟩, Option.none) ∧
    receive ⟨[⟨.logSignal pin period, 1, .resolved .pyNone, .pending, [t0, t1], [v0, v1]⟩],
             mgr, [], [], []⟩
        (.obj [("command", .str "RX_LOG_SIGNAL"), ("pin", .str pin), ("job", .int 1),
               ("time", t2), ("value", v2), ("done", .bool false)])
      = (⟨[⟨.logSignal pin period, 1, .resolved .pyNone, .pending,
            [t0, t1, t2], [v0, v1, v2]⟩], mgr, [], [], []⟩, Option.none) ∧
    receive ⟨[⟨.logSignal pin period, 1, .resolved .pyNone, .pending,
              [t0, t1, t2], [v0, v1, v2]⟩], mgr, [], [], []⟩
        (.obj [("command", .str "RX_LOG_SIGNAL"), ("pin", .str pin), ("job", .int 1),
               ("time", t3), ("value", v3), ("done", .bool true)])
      = (⟨[], mgr.put 1, [], [],
          [⟨.logSignal pin period, 1, .resolved .pyNone,
            .resolved (.timeSeries [t0, t1, t2, t3] [v0, v1, v2, v3]),
            [t0, t1, t2, t3], [v0, v1, v2, v3]⟩]⟩, Option.none) := by
  refine ⟨?_, ?_, ?_, ?_⟩ <;>
    simp [receive, jobField, Json.lookup, lookupField, findCmd, pyIntEq, CmdState.fresh,
          CmdState.update, CmdState.updateLogSignal, forwardError, pyStrEq,
          CmdKind.name, pyTruthy, Json.truthy, Future.done]

/-- C7: for every non-streaming command, a dispatched reply whose
`command` equals `'ERR_' + name` or the generic invalid-command marker
`'ERR_COMMAND_INVALID'` makes `update` fail the command's future with a
`ControllinoError` carrying the raw reply and report completion, so
`_receive` releases the JobId back to the pool and removes the command
from the pending table. -/
theorem error_reply_terminates (k : CmdKind) (hk : k.isStream = false)
    (ct : String)
    (hct : ct = "ERR_" ++ k.name ∨ ct = "ERR_COMMAND_INVALID")
    (j : Nat) (mgr : IdManager) (extra : List (String × Json)) :
    receive ⟨[CmdState.fresh k j], mgr, [], [], []⟩
        (.obj (("command", .str ct) :: ("job", .int (j : Int)) :: extra))
      = (⟨[], mgr.put j, [], [],
          [⟨k, j,
            .failed (.obj (("command", .str ct) :: ("job", .int (j : Int)) :: extra)),
            .pending, [], []⟩]⟩, Option.none) := by
  rcases hct with rfl | rfl <;>
    cases k <;>
      simp_all [receive, jobField, Json.lookup, lookupField, findCmd, pyIntEq, CmdState.fresh,
                CmdState.update, CmdState.updateDefault, forwardError, pyStrEq,
                CmdKind.name, CmdKind.isStream, pyTruthy, Json.truthy]

/-- Witness for C7: a `LOAD_PIN_MODES` command (JobId 5) receiving
`ERR_LOAD_PIN_MODES`. -/
theorem error_reply_terminates_witness :
    (CmdKind.loadPinModes.isStream = false ∧
     ("ERR_LOAD_PIN_MODES" = "ERR_" ++ CmdKind.loadPinModes.name ∨
      "ERR_LOAD_PIN_MODES" = "ERR_COMMAND_INVALID")) ∧
    receive ⟨[CmdState.fresh .loadPinModes 5], IdManager.init 255, [], [], []⟩
        (.obj [("command", .str "ERR_LOAD_PIN_MODES"), ("job", .int 5)])
      = (⟨[], (IdManager.init 255).put 5, [], [],
          [⟨.loadPinModes, 5,
            .failed (.obj [("command", .str "ERR_LOAD_PIN_MODES"), ("job", .int 5)]),
            .pending, [], []⟩]⟩, Option.none) :=
  ⟨⟨rfl, Or.inl (by decide)⟩,
   error_reply_terminates .loadPinModes rfl "ERR_LOAD_PIN_MODES"
     (Or.inl (by decide)) 5 (IdManager.init 255) []⟩

/-- C10 (implicit): for every non-streaming command, a dispatched reply
whose `command` matches neither `'ERR_' + name` nor
`'ERR_COMMAND_INVALID'` nor `'RX_' + name` is silently ignored:
`update` falls through and returns Python `None` (not `False`), the
future stays unresolved, `_receive` leaves the command registered with
its JobId still held and reports nothing. -/
theorem unmatched_reply_ignored (k : CmdKind) (hk : k.isStream = false)
    (ct : String)
    (h1 : ct ≠ "ERR_" ++ k.name) (h2 : ct ≠ "ERR_COMMAND_INVALID")
    (h3 : ct ≠ "RX_" ++ k.name)
    (j : Nat) (mgr : IdManager) (extra : List (String × Json)) :
    CmdState.update (CmdState.fresh k j)
        (.obj (("command", .str ct) :: ("job", .int (j : Int)) :: extra))
      = .ok (CmdState.fresh k j, Option.none) ∧
    receive ⟨[CmdState.fresh k j], mgr, [], [], []⟩
        (.obj (("command", .str ct) :: ("job", .int (j : Int)) :: extra))
      = (⟨[CmdState.fresh k j], mgr, [], [], []⟩, Option.none) := by
  cases k <;>
    simp_all [receive, jobField, Json.lookup, lookupField, findCmd, pyIntEq, CmdState.fresh,
              CmdState.update, CmdState.updateDefault, forwardError, pyStrEq,
              CmdKind.name, CmdKind.isStream, pyTruthy, Json.truthy]

/-- Witness for C10: a `GET_INPUT` command (JobId 3) receiving an
unrelated `RX_SET_OUTPUT` reply. -/
theorem unmatched_reply_ignored_witness :
    (CmdKind.isStream (.getSignal "A0") = false ∧
     "RX_SET_OUTPUT" ≠ "ERR_" ++ CmdKind.name (.getSignal "A0") ∧
     "RX_SET_OUTPUT" ≠ "ERR_COMMAND_INVALID" ∧
     "RX_SET_OUTPUT" ≠ "RX_" ++ CmdKind.name (.getSignal "A0")) ∧
    CmdState.update (CmdState.fresh (.getSignal "A0") 3)
        (.obj [("command", .str "RX_SET_OUTPUT"), ("job", .int 3)])
      = .ok (CmdState.fresh (.getSignal "A0") 3, Option.none) ∧
    receive ⟨[CmdState.fresh (.getSignal "A0") 3], IdManager.init 255, [], [], []⟩
        (.obj [("command", .str "RX_SET_OUTPUT"), ("job", .int 3)])
      = (⟨[CmdState.fresh (.getSignal "A0") 3], IdManager.init 255, [], [], []⟩,
         Option.none) :=
  ⟨⟨rfl, by decide, by decide, by decide⟩,
   unmatched_reply_ignored (.getSignal "A0") rfl "RX_SET_OUTPUT"
     (by decide) (by decide) (by decide) 3 (IdManager.init 255) []⟩

lemma receive_retired_extend (s : RxState) (r : Json) :
    ∃ t, ((receive s r).1).retired = s.retired ++ t := by
  unfold receive
  repeat' split
  all_goals first
    | exact ⟨_, rfl⟩
    | exact ⟨[], by simp⟩

lemma dispatchAll_retired_extend (rs : List Json) :
    ∀ s : RxState, ∃ t, ((dispatchAll s rs).1).retired = s.retired ++ t := by
  induction rs with
  | nil => intro s; exact ⟨[], by simp [dispatchAll]⟩
  | cons r rest ih =>
    intro s
    obtain ⟨t1, ht1⟩ := receive_retired_extend s r
    unfold dispatchAll
    cases hr : receive s r with
    | mk s2 exc =>
      rw [hr] at ht1
      simp only [] at ht1
      cases exc with
      | none =>
        obtain ⟨t2, ht2⟩ := ih s2
        exact ⟨t1 ++ t2, by rw [ht2, ht1, List.append_assoc]⟩
      | some e => exact ⟨t1, ht1⟩

/-- C9: a streaming `LOG_SIGNAL` command (JobId 1) whose very first
reply is an error: the first future fails with that error, `update`
reports completion immediately — the command is removed from the
pending table and its id released — while the second future is still
pending.  Moreover dispatching any further replies from any state only
appends to the retired commands, never mutating them, so the retired
command's second future remains pending forever. -/
theorem log_signal_declined (pin : String) (period : Int) (mgr : IdManager)
    (extra : List (String × Json)) :
    receive ⟨[CmdState.fresh (.logSignal pin period) 1], mgr, [], [], []⟩
        (.obj (("command", .str "ERR_LOG_SIGNAL") :: ("job", .int 1) :: extra))
      = (⟨[], mgr.put 1, [], [],
          [⟨.logSignal pin period, 1,
            .failed (.obj (("command", .str "ERR_LOG_SIGNAL") :: ("job", .int 1) :: extra)),
            .pending, [], []⟩]⟩, Option.none) ∧
    (∀ (s : RxState) (rs : List Json),
      ∃ t, ((dispatchAll s rs).1).retired = s.retired ++ t) := by
  constructor
  · simp [receive, jobField, Json.lookup, lookupField, findCmd, pyIntEq, CmdState.fresh,
          CmdState.update, CmdState.updateLogSignal, forwardError, pyStrEq,
          CmdKind.name, pyTruthy, Json.truthy, Future.done]
  · exact fun s rs => dispatchAll_retired_extend rs s

/-- C3 (amended): when `_receive` dispatches a decoded reply that has
no `job` field (whether or not its `command` starts with the general
error marker `ERROR`), or a `job` matching no pending command, it
reports a `ControllinoError` through the shared error channel and
returns normally — no exception escapes, so the receive loop goes on
polling and dispatches any subsequent replies (such reports are not
fatal; the original claim's "loop exits after reporting" is refuted by
`unsolicited_reply_loop_continues`). -/
theorem unsolicited_reply_reported (s : RxState) (reply : Json) (ct : String)
    (hc : reply.lookup "command" = some (.str ct))
    (h : jobField reply = Option.none ∨
         ∃ jv, jobField reply = some jv ∧ findCmd s.pending jv = Option.none) :
    (∃ err, receive s reply = ({s with errors := s.errors ++ [err]}, Option.none)) ∧
    ∀ rs, dispatchAll s (reply :: rs) = dispatchAll (receive s reply).1 rs := by
  have hmain :
      ∃ err, receive s reply = ({s with errors := s.errors ++ [err]}, Option.none) := by
    rcases h with hj | ⟨jv, hjv, hferr⟩
    · by_cases hpre : isPrefixLC "ERROR".data ct.data = true
      · exact ⟨.generalError reply, by simp [receive, hc, hj, hpre]⟩
      · exact ⟨.outOfTurn reply, by simp [receive, hc, hj, hpre]⟩
    · exact ⟨.invalidJob reply, by simp [receive, hc, hjv, hferr]⟩
  refine ⟨hmain, ?_⟩
  intro rs
  obtain ⟨err, heq⟩ := hmain
  show (match receive s reply with
        | (s2, Option.none) => dispatchAll s2 rs
        | (s2, some e) => (s2, some e)) = dispatchAll (receive s reply).1 rs
  rw [heq]

/-- Witness for C3 (amended): an `ERR_PANIC` reply without a job id is
reported and the dispatcher returns without an exception. -/
theorem unsolicited_reply_reported_witness :
    ((Json.obj [("command", .str "ERR_PANIC")]).lookup "command"
        = some (.str "ERR_PANIC") ∧
     jobField (Json.obj [("command", .str "ERR_PANIC")]) = Option.none) ∧
    (∃ err, receive ⟨[], ⟨255, []⟩, [], [], []⟩ (Json.obj [("command", .str "ERR_PANIC")])
        = ({pending := [], manager := ⟨255, []⟩, buffer := [],
            errors := ([] : List RxError) ++ [err], retired := []}, Option.none)) :=
  ⟨⟨rfl, rfl⟩,
   (unsolicited_reply_reported ⟨[], ⟨255, []⟩, [], [], []⟩
     (Json.obj [("command", .str "ERR_PANIC")]) "ERR_PANIC" rfl (Or.inl rfl)).1⟩

/-- Counterexample to C3 as stated: after a reply with an unknown job
id is reported, the receive loop does NOT exit — fed one batch holding
the unknown-job frame followed by a well-formed frame for the pending
`GET_INPUT` command (job 1), the loop reports `invalidJob`, still
dispatches the second frame (resolving the command's future with 123),
and finishes the batch alive (`true`). -/
theorem unsolicited_reply_loop_continues :
    runBatches ⟨[CmdState.fresh (.getSignal "A0") 1], ⟨255, []⟩, [], [], []⟩
        [("\x7b\"command\": \"RX_UNKNOWN\", \"job\": 8\x7d\r\n" ++
          "\x7b\"command\": \"RX_GET_INPUT\", \"level\": 123, \"job\": 1\x7d\r\n").data]
      = (⟨[], ⟨255, [1]⟩, [],
          [.invalidJob (.obj [("command", .str "RX_UNKNOWN"), ("job", .int 8)])],
          [⟨.getSignal "A0", 1, .resolved (.json (.int 123)), .pending, [], []⟩]⟩,
         true) := by
  rfl

/-- C4 (code bug, failing input): one frame prefixed with an extraneous
`'_'` byte but keeping its trailing CR LF delimiter — the flawed
message of `tests/test_controllino.py::test_error_correction` — makes
`json.loads` raise on the prefixed segment; the catch-all in
`_MessageThread.run` pushes the decode error and ends the receive
loop.  A well-formed frame arriving afterwards (here for pending job 2)
is therefore never decoded or dispatched: both pending commands'
futures stay unresolved, contradicting the claimed (and spec- and
test-mandated) self-healing recovery. -/
theorem prefixed_frame_kills_loop :
    runBatches ⟨[CmdState.fresh (.getSignal "A2") 1, CmdState.fresh (.getSignal "A1") 2],
                ⟨255, []⟩, [], [], []⟩
        [("_\x7b\"command\": \"RX_GET_INPUT\", \"pin\": \"A2\", \"level\": 12, \"job\": 1\x7d\r\n").data,
         ("\x7b\"command\": \"RX_GET_INPUT\", \"pin\": \"A1\", \"level\": 34, \"job\": 2\x7d\r\n").data]
      = (⟨[CmdState.fresh (.getSignal "A2") 1, CmdState.fresh (.getSignal "A1") 2],
          ⟨255, []⟩, [], [RxError.fatal "JSONDecodeError"], []⟩,
         false) := by
  rfl

/-- C6: when the id pool is exhausted, `Base.submit` raises the
`RuntimeError("maximum number of jobs exceeded")` synchronously and
performs no mutation at all: the pending list, the send queue and the
manager are exactly as before (the `pop` is the first statement of
`submit`, before any registration or enqueueing). -/
theorem submit_pool_exhausted (s : BaseState) (k : CmdKind)
    (h : s.manager.queue = []) :
    Base.submit s k = (s, Except.error "maximum number of jobs exceeded") := by
  obtain ⟨pend, q, sz, mq⟩ := s
  cases mq with
  | nil => rfl
  | cons a rest => simp at h

/- Codec lemmas for the round-trip theorem (C8). -/

lemma hexVal_hexDigitChar (d : Nat) (h : d < 16) :
    hexVal (hexDigitChar d) = some d := by
  interval_cases d <;> decide

lemma hex4Val_toHex4 (n : Nat) (h : n < 65536) :
    hex4Val (hexDigitChar (n / 4096 % 16)) (hexDigitChar (n / 256 % 16))
      (hexDigitChar (n / 16 % 16)) (hexDigitChar (n % 16)) = some n := by
  rw [hex4Val, hexVal_hexDigitChar _ (Nat.mod_lt _ (by omega)),
      hexVal_hexDigitChar _ (Nat.mod_lt _ (by omega)),
      hexVal_hexDigitChar _ (Nat.mod_lt _ (by omega)),
      hexVal_hexDigitChar _ (Nat.mod_lt _ (by omega))]
  show some (4096 * (n / 4096 % 16) + 256 * (n / 256 % 16) + 16 * (n / 16 % 16) + n % 16)
      = some n
  refine congrArg some ?_
  have d1 : n / 16 / 16 = n / 256 := by rw [Nat.div_div_eq_div_mul]
  have d2 : n / 256 / 16 = n / 4096 := by rw [Nat.div_div_eq_div_mul]
  have e1 : 16 * (n / 16) + n % 16 = n := Nat.div_add_mod n 16
  have e2 : 16 * (n / 16 / 16) + n / 16 % 16 = n / 16 := Nat.div_add_mod _ 16
  have e3 : 16 * (n / 256 / 16) + n / 256 % 16 = n / 256 := Nat.div_add_mod _ 16
  have m4 : n / 4096 % 16 = n / 4096 := Nat.mod_eq_of_lt (by omega)
  omega

lemma parseU16_toHex4 (n : Nat) (h : n < 65536) (l : List Char) :
    parseU16 (toHex4 n ++ l) = some (n, l) := by
  rw [toHex4]
  simp only [List.cons_append, List.nil_append, parseU16]
  rw [hex4Val_toHex4 n h]
  rfl

lemma parseUEscape_bmp (n : Nat) (hn : n < 65536) (hsur : n < 55296 ∨ 57344 ≤ n)
    (l : List Char) :
    parseUEscape (toHex4 n ++ l) = some (Char.ofNat n, l) := by
  rw [parseUEscape, parseU16_toHex4 n hn]
  simp only [eq_false (show ¬(55296 ≤ n ∧ n < 56320) by omega),
             eq_false (show ¬(56320 ≤ n ∧ n < 57344) by omega), if_false]

lemma parseUEscape_pair (hi lo : Nat) (hhi : 55296 ≤ hi ∧ hi < 56320)
    (hlo : 56320 ≤ lo ∧ lo < 57344) (l : List Char) :
    parseUEscape (toHex4 hi ++ ('\\' :: 'u' :: toHex4 lo) ++ l)
      = some (Char.ofNat (65536 + (hi - 55296) * 1024 + (lo - 56320)), l) := by
  rw [List.append_assoc, parseUEscape, parseU16_toHex4 _ (by omega)]
  simp only []
  rw [if_pos hhi]
  simp only [List.cons_append, List.nil_append]
  rw [parseU16_toHex4 _ (by omega)]
  simp only []
  rw [if_pos hlo]

lemma parseUEscape_surrogate (n : Nat) (hn : 65536 ≤ n) (hn2 : n < 1114112)
    (l : List Char) :
    parseUEscape (toHex4 (55296 + (n - 65536) / 1024) ++
        ('\\' :: 'u' :: toHex4 (56320 + (n - 65536) % 1024)) ++ l)
      = some (Char.ofNat n, l) := by
  have hdivlt : (n - 65536) / 1024 < 1024 := by omega
  rw [parseUEscape_pair (55296 + (n - 65536) / 1024) (56320 + (n - 65536) % 1024)
      (by omega) (by omega) l]
  have harith : 65536 + (55296 + (n - 65536) / 1024 - 55296) * 1024 +
      (56320 + (n - 65536) % 1024 - 56320) = n := by
    have := Nat.div_add_mod (n - 65536) 1024
    omega
  rw [harith]

lemma parseStringBody_escape (ch : Char) (fuel : Nat) (l : List Char) :
    parseStringBody (fuel + 1) (escapeChar ch ++ l)
      = (parseStringBody fuel l).map fun p => (ch :: p.1, p.2) := by
  by_cases h1 : ch = '\\'
  · subst h1; simp [escapeChar, parseStringBody, parseEscape, escSimple]
  by_cases h2 : ch = '"'
  · subst h2; simp [escapeChar, parseStringBody, parseEscape, escSimple]
  by_cases h3 : ch = '\x08'
  · subst h3; simp [escapeChar, parseStringBody, parseEscape, escSimple]
  by_cases h4 : ch = '\x0c'
  · subst h4; simp [escapeChar, parseStringBody, parseEscape, escSimple]
  by_cases h5 : ch = '\n'
  · subst h5; simp [escapeChar, parseStringBody, parseEscape, escSimple]
  by_cases h6 : ch = '\r'
  · subst h6; simp [escapeChar, parseStringBody, parseEscape, escSimple]
  by_cases h7 : ch = '\t'
  · subst h7; simp [escapeChar, parseStringBody, parseEscape, escSimple]
  have hval : ch.toNat < 55296 ∨ (57344 ≤ ch.toNat ∧ ch.toNat < 1114112) := ch.valid
  by_cases h8 : ch.toNat < 32 ∨ 126 < ch.toNat
  · by_cases h9 : ch.toNat < 65536
    · have hesc : escapeChar ch = '\\' :: 'u' :: toHex4 ch.toNat := by
        rw [escapeChar, if_neg h1, if_neg h2, if_neg h3, if_neg h4, if_neg h5,
            if_neg h6, if_neg h7, if_pos h8, if_pos h9]
      have hpe : parseEscape ('u' :: (toHex4 ch.toNat ++ l)) = some (ch, l) := by
        rw [parseEscape]
        rw [if_pos (rfl : ('u' : Char) = 'u')]
        rw [parseUEscape_bmp ch.toNat h9 (by omega) l, Char.ofNat_toNat]
      rw [hesc]
      simp only [List.cons_append]
      rw [parseStringBody]
      rw [if_neg (show ¬('\\' : Char) = '"' by decide),
          if_pos (rfl : ('\\' : Char) = '\\'), hpe]
    · have hesc : escapeChar ch
          = '\\' :: 'u' :: toHex4 (55296 + (ch.toNat - 65536) / 1024) ++
            ('\\' :: 'u' :: toHex4 (56320 + (ch.toNat - 65536) % 1024)) := by
        rw [escapeChar, if_neg h1, if_neg h2, if_neg h3, if_neg h4, if_neg h5,
            if_neg h6, if_neg h7, if_pos h8, if_neg h9]
      have hpe : parseEscape ('u' :: (toHex4 (55296 + (ch.toNat - 65536) / 1024) ++
            ('\\' :: 'u' :: (toHex4 (56320 + (ch.toNat - 65536) % 1024) ++ l))))
          = some (ch, l) := by
        rw [parseEscape]
        rw [if_pos (rfl : ('u' : Char) = 'u')]
        rw [show ('\\' :: 'u' :: (toHex4 (56320 + (ch.toNat - 65536) % 1024) ++ l) : List Char)
            = ('\\' :: 'u' :: toHex4 (56320 + (ch.toNat - 65536) % 1024)) ++ l by simp]
        rw [← List.append_assoc]
        rw [parseUEscape_surrogate ch.toNat (by omega) (by omega) l, Char.ofNat_toNat]
      rw [hesc]
      simp only [List.cons_append, List.append_assoc]
      rw [parseStringBody]
      rw [if_neg (show ¬('\\' : Char) = '"' by decide),
          if_pos (rfl : ('\\' : Char) = '\\'), hpe]
  · have hesc : escapeChar ch = [ch] := by
      rw [escapeChar, if_neg h1, if_neg h2, if_neg h3, if_neg h4, if_neg h5,
        if_neg h6, if_neg h7, if_neg h8]
    rw [hesc]
    simp only [List.cons_append, List.nil_append]
    rw [parseStringBody]
    rw [if_neg h2, if_neg h1, if_neg (show ¬ch.toNat < 32 by omega)]

lemma parseStringBody_dump (cs : List Char) :
    ∀ (fuel : Nat), cs.length < fuel → ∀ (l : List Char),
      parseStringBody fuel ((cs.map escapeChar).flatten ++ '"' :: l) = some (cs, l) := by
  induction cs with
  | nil =>
    intro fuel hfuel l
    obtain ⟨f, rfl⟩ : ∃ f, fuel = f + 1 := ⟨fuel - 1, by omega⟩
    simp [parseStringBody]
  | cons c rest ih =>
    intro fuel hfuel l
    obtain ⟨f, rfl⟩ : ∃ f, fuel = f + 1 := ⟨fuel - 1, by omega⟩
    simp only [List.map_cons, List.flatten_cons, List.append_assoc]
    rw [parseStringBody_escape c f _]
    rw [ih f (by simpa using hfuel) l]
    rfl

lemma digitChar_isDigit (d : Nat) (h : d < 10) :
    (Char.ofNat (48 + d)).isDigit = true := by
  interval_cases d <;> decide

lemma digitChar_toNat (d : Nat) (h : d < 10) :
    (Char.ofNat (48 + d)).toNat = 48 + d := by
  interval_cases d <;> decide

lemma natRepr_all_digit (n : Nat) : ∀ c ∈ natRepr n, c.isDigit = true := by
  intro c hc
  rw [natRepr] at hc
  by_cases h : n = 0
  · rw [if_pos h] at hc
    simp at hc
    subst hc; decide
  · rw [if_neg h] at hc
    simp only [List.mem_map, List.mem_reverse] at hc
    obtain ⟨d, hd, rfl⟩ := hc
    exact digitChar_isDigit d (Nat.digits_lt_base (by omega) hd)

lemma natRepr_ne_nil (n : Nat) : natRepr n ≠ [] := by
  rw [natRepr]
  by_cases h : n = 0
  · simp [h]
  · rw [if_neg h]
    simp [Nat.digits_ne_nil_iff_ne_zero, h]

lemma takeDigits_run (ds : List Char) (hds : ∀ c ∈ ds, c.isDigit = true)
    (l : List Char) (hl : headNotDigit l) :
    takeDigits (ds ++ l) = (ds, l) := by
  induction ds with
  | nil =>
    cases l with
    | nil => rfl
    | cons c r =>
      simp only [headNotDigit] at hl
      simp [takeDigits, hl]
  | cons c rest ih =>
    have hrest := ih (fun x hx => hds x (by simp [hx]))
    simp only [List.cons_append, takeDigits, hds c (by simp), if_true, List.append_eq]
    rw [hrest]

lemma foldl_digitChars (L : List Nat) (hL : ∀ d ∈ L, d < 10) :
    ∀ a : Nat,
      List.foldl (fun acc c => 10 * acc + (c.toNat - 48)) a
          (L.map fun d => Char.ofNat (48 + d))
        = List.foldl (fun acc d => 10 * acc + d) a L := by
  induction L with
  | nil => intro a; rfl
  | cons d rest ih =>
    intro a
    simp only [List.map_cons, List.foldl_cons]
    rw [digitChar_toNat d (hL d (by simp))]
    rw [show 48 + d - 48 = d by omega]
    exact ih (fun x hx => hL x (by simp [hx])) _

lemma foldl_ofDigits (L : List Nat) :
    List.foldl (fun acc d => 10 * acc + d) 0 L.reverse = Nat.ofDigits 10 L := by
  rw [List.foldl_reverse]
  induction L with
  | nil => simp [Nat.ofDigits]
  | cons d rest ih => simp [Nat.ofDigits_cons, ih]; ring

lemma digitsVal_natRepr (n : Nat) : digitsVal (natRepr n) = n := by
  by_cases h : n = 0
  · subst h; decide
  · rw [natRepr, if_neg h, digitsVal]
    rw [foldl_digitChars ((Nat.digits 10 n).reverse)
        (fun d hd => Nat.digits_lt_base (by omega) (List.mem_reverse.mp hd)) 0]
    rw [foldl_ofDigits]
    exact Nat.ofDigits_digits 10 n

lemma digit_not_special (d : Char) (h : d.isDigit = true) :
    d ≠ 'n' ∧ d ≠ 't' ∧ d ≠ 'f' ∧ d ≠ '"' ∧ d ≠ '-' ∧ d ≠ '\x7b' ∧ d ≠ '[' := by
  refine ⟨?_, ?_, ?_, ?_, ?_, ?_, ?_⟩ <;> (rintro rfl; revert h; decide)

lemma parseValue_nat (n : Nat) (fuel : Nat) (l : List Char) (hl : headNotDigit l) :
    parseValue (fuel + 1) (natRepr n ++ l) = some (.int (n : Int), l) := by
  obtain ⟨d, ds, hrepr⟩ : ∃ d ds, natRepr n = d :: ds := by
    cases hr : natRepr n with
    | nil => exact absurd hr (natRepr_ne_nil n)
    | cons d ds => exact ⟨d, ds, rfl⟩
  have hdig : ∀ c ∈ natRepr n, c.isDigit = true := natRepr_all_digit n
  have hd : d.isDigit = true := hdig d (by rw [hrepr]; simp)
  obtain ⟨hn', ht', hf', hq', hm', hb', hk'⟩ := digit_not_special d hd
  rw [hrepr]
  simp only [List.cons_append]
  rw [parseValue]
  rw [if_neg hn', if_neg ht', if_neg hf', if_neg hq', if_neg hm', if_neg hb', if_neg hk',
      if_pos hd]
  rw [show d :: (ds ++ l) = (d :: ds) ++ l from rfl]
  rw [show (d :: ds) ++ l = natRepr n ++ l by rw [hrepr]]
  rw [takeDigits_run (natRepr n) hdig l hl]
  rw [hrepr]
  simp only [List.isEmpty_cons, if_false, Bool.false_eq_true]
  rw [show digitsVal (d :: ds) = n by rw [← hrepr]; exact digitsVal_natRepr n]

lemma parseValue_int (n : Int) (fuel : Nat) (l : List Char) (hl : headNotDigit l) :
    parseValue (fuel + 1) (intRepr n ++ l) = some (.int n, l) := by
  rw [intRepr]
  by_cases hneg : n < 0
  · rw [if_pos hneg]
    simp only [List.cons_append]
    rw [parseValue]
    rw [if_neg (by decide), if_neg (by decide), if_neg (by decide), if_neg (by decide),
        if_pos (rfl : ('-' : Char) = '-')]
    rw [takeDigits_run (natRepr (-n).toNat) (natRepr_all_digit _) l hl]
    obtain ⟨d, ds, hrepr⟩ : ∃ d ds, natRepr (-n).toNat = d :: ds := by
      cases hr : natRepr (-n).toNat with
      | nil => exact absurd hr (natRepr_ne_nil _)
      | cons d ds => exact ⟨d, ds, rfl⟩
    rw [hrepr]
    simp only [List.isEmpty_cons, if_false, Bool.false_eq_true]
    rw [show digitsVal (d :: ds) = (-n).toNat by rw [← hrepr]; exact digitsVal_natRepr _]
    have hcast : (((-n).toNat : Int)) = -n := Int.toNat_of_nonneg (by omega)
    rw [hcast]
    simp
  · rw [if_neg hneg]
    rw [parseValue_nat n.toNat fuel l hl]
    rw [Int.toNat_of_nonneg (by omega)]

lemma escapeChar_length_pos (c : Char) : 1 ≤ (escapeChar c).length := by
  rw [escapeChar]; split_ifs <;> simp [toHex4]

lemma length_le_flatten_escape (cs : List Char) :
    cs.length ≤ ((cs.map escapeChar).flatten).length := by
  induction cs with
  | nil => simp
  | cons c rest ih =>
    simp only [List.map_cons, List.flatten_cons, List.length_append, List.length_cons]
    have := escapeChar_length_pos c
    omega

lemma parseValue_str (s : String) (fuel : Nat) (l : List Char) :
    parseValue (fuel + 1) (dumpString s ++ l) = some (.str s, l) := by
  rw [dumpString]
  simp only [List.cons_append, List.append_assoc, List.singleton_append]
  rw [parseValue]
  rw [if_neg (by decide), if_neg (by decide), if_neg (by decide),
      if_pos (rfl : ('"' : Char) = '"')]
  rw [parseStringBody_dump s.data _
      (by have h := length_le_flatten_escape s.data
          simp only [List.length_append, List.length_cons, List.nil_append]
          omega) _]
  rfl

lemma skipWs_fix (l : List Char) (h : headNotWs l) : skipWs l = l := by
  cases l with
  | nil => rfl
  | cons c r =>
    simp only [headNotWs] at h
    simp [skipWs, h]

lemma parseValue_scalar (v : Scalar) (fuel : Nat) (l : List Char) (hl : headNotDigit l) :
    parseValue (fuel + 1) (dumpJson v.toJson ++ l) = some (v.toJson, l) := by
  cases v with
  | null =>
    rw [show dumpJson Scalar.null.toJson = ['n', 'u', 'l', 'l'] from rfl]
    simp only [List.cons_append, List.nil_append]
    rw [parseValue]
    rw [if_pos (rfl : ('n' : Char) = 'n')]
    simp [eatLit, Scalar.toJson]
  | bool b =>
    cases b with
    | false =>
      rw [show dumpJson (Scalar.bool false).toJson = ['f', 'a', 'l', 's', 'e'] from rfl]
      simp only [List.cons_append, List.nil_append]
      rw [parseValue]
      rw [if_neg (by decide), if_neg (by decide), if_pos (rfl : ('f' : Char) = 'f')]
      simp [eatLit, Scalar.toJson]
    | true =>
      rw [show dumpJson (Scalar.bool true).toJson = ['t', 'r', 'u', 'e'] from rfl]
      simp only [List.cons_append, List.nil_append]
      rw [parseValue]
      rw [if_neg (by decide), if_pos (rfl : ('t' : Char) = 't')]
      simp [eatLit, Scalar.toJson]
  | int n =>
    rw [show dumpJson (Scalar.int n).toJson = intRepr n from rfl]
    exact parseValue_int n fuel l hl
  | str s =>
    rw [show dumpJson (Scalar.str s).toJson = dumpString s from rfl]
    exact parseValue_str s fuel l

lemma hexDigitChar_ne_cr (d : Nat) (h : d < 16) : hexDigitChar d ≠ '\r' := by
  interval_cases d <;> decide

lemma toHex4_ne_cr (n : Nat) : ∀ c ∈ toHex4 n, c ≠ '\r' := by
  intro c hc
  rw [toHex4] at hc
  simp only [List.mem_cons, List.mem_singleton, List.not_mem_nil, or_false] at hc
  rcases hc with rfl | rfl | rfl | rfl <;>
    exact hexDigitChar_ne_cr _ (Nat.mod_lt _ (by omega))

lemma escapeChar_ne_cr (ch : Char) : ∀ c ∈ escapeChar ch, c ≠ '\r' := by
  intro c hc
  rw [escapeChar] at hc
  split_ifs at hc with h1 h2 h3 h4 h5 h6 h7 h8 h9
  · simp at hc; subst hc; decide
  · simp at hc; rcases hc with rfl | rfl <;> decide
  · simp at hc; rcases hc with rfl | rfl <;> decide
  · simp at hc; rcases hc with rfl | rfl <;> decide
  · simp at hc; rcases hc with rfl | rfl <;> decide
  · simp at hc; rcases hc with rfl | rfl <;> decide
  · simp at hc; rcases hc with rfl | rfl <;> decide
  · simp at hc
    rcases hc with rfl | rfl | hc
    · decide
    · decide
    · exact toHex4_ne_cr _ c hc
  · simp at hc
    rcases hc with rfl | rfl | hc | rfl | rfl | hc
    · decide
    · decide
    · exact toHex4_ne_cr _ c hc
    · decide
    · decide
    · exact toHex4_ne_cr _ c hc
  · simp at hc
    subst hc
    intro hcr
    rw [hcr] at h8
    exact h8 (Or.inl (by decide))

lemma dumpString_ne_cr (s : String) : ∀ c ∈ dumpString s, c ≠ '\r' := by
  intro c hc
  rw [dumpString] at hc
  simp at hc
  rcases hc with rfl | ⟨a, ha, hcesc⟩ | rfl
  · decide
  · exact escapeChar_ne_cr a c hcesc
  · decide

lemma natRepr_ne_cr (n : Nat) : ∀ c ∈ natRepr n, c ≠ '\r' := by
  intro c hc hcr
  have hd := natRepr_all_digit n c hc
  rw [hcr] at hd
  exact absurd hd (by decide)

lemma intRepr_ne_cr (n : Int) : ∀ c ∈ intRepr n, c ≠ '\r' := by
  intro c hc
  rw [intRepr] at hc
  split_ifs at hc
  · simp only [List.mem_cons] at hc
    rcases hc with rfl | hc
    · decide
    · exact natRepr_ne_cr _ c hc
  · exact natRepr_ne_cr _ c hc

lemma dumpScalar_ne_cr (v : Scalar) : ∀ c ∈ dumpJson v.toJson, c ≠ '\r' := by
  cases v with
  | null => intro c hc; rw [show dumpJson Scalar.null.toJson = ['n','u','l','l'] from rfl] at hc; simp at hc; rcases hc with rfl | rfl | rfl <;> decide
  | bool b =>
    cases b with
    | false => intro c hc; rw [show dumpJson (Scalar.bool false).toJson = ['f','a','l','s','e'] from rfl] at hc; simp at hc; rcases hc with rfl | rfl | rfl | rfl | rfl <;> decide
    | true => intro c hc; rw [show dumpJson (Scalar.bool true).toJson = ['t','r','u','e'] from rfl] at hc; simp at hc; rcases hc with rfl | rfl | rfl | rfl <;> decide
  | int n => intro c hc; rw [show dumpJson (Scalar.int n).toJson = intRepr n from rfl] at hc; exact intRepr_ne_cr n c hc
  | str s => intro c hc; rw [show dumpJson (Scalar.str s).toJson = dumpString s from rfl] at hc; exact dumpString_ne_cr s c hc

lemma dumpFields_ne_cr (fs : List (String × Json))
    (hflat : ∀ kv ∈ fs, ∃ v : Scalar, kv.2 = v.toJson) :
    ∀ c ∈ dumpFields fs, c ≠ '\r' := by
  induction fs with
  | nil => simp [dumpFields]
  | cons kv rest ih =>
    obtain ⟨k, v⟩ := kv
    obtain ⟨sv, hv0⟩ := hflat (k, v) (by simp)
    have hv : v = sv.toJson := hv0
    cases rest with
    | nil =>
      intro c hc
      rw [show dumpFields [(k, v)] = dumpString k ++ ": ".data ++ dumpJson v from rfl] at hc
      simp only [List.mem_append] at hc
      rcases hc with (hc | hc) | hc
      · exact dumpString_ne_cr k c hc
      · simp at hc; rcases hc with rfl | rfl <;> decide
      · rw [hv] at hc; exact dumpScalar_ne_cr sv c hc
    | cons y rest2 =>
      intro c hc
      rw [show dumpFields ((k, v) :: y :: rest2)
            = dumpString k ++ ": ".data ++ dumpJson v ++ ", ".data
              ++ dumpFields (y :: rest2) from rfl] at hc
      simp only [List.mem_append] at hc
      rcases hc with (((hc | hc) | hc) | hc) | hc
      · exact dumpString_ne_cr k c hc
      · simp at hc; rcases hc with rfl | rfl <;> decide
      · rw [hv] at hc; exact dumpScalar_ne_cr sv c hc
      · simp at hc; rcases hc with rfl | rfl <;> decide
      · exact ih (fun x hx => hflat x (by simp [List.mem_cons] at hx ⊢; tauto)) c hc

lemma splitCRLF_no_cr (l : List Char) (h : ∀ c ∈ l, c ≠ '\r') :
    splitCRLF (l ++ ['\r', '\n']) = ([l], []) := by
  induction l with
  | nil => rfl
  | cons c rest ih =>
    have hc : c ≠ '\r' := h c (by simp)
    have hrest := ih (fun x hx => h x (by simp [hx]))
    cases rest with
    | nil =>
      rw [show (c :: ([] : List Char)) ++ ['\r', '\n'] = c :: '\r' :: ['\n'] from rfl]
      rw [splitCRLF]
      rw [if_neg (by rintro ⟨h1, h2⟩; exact hc h1)]
      simp only [List.nil_append] at hrest
      rw [hrest]
    | cons d rest2 =>
      rw [show (c :: d :: rest2) ++ ['\r', '\n'] = c :: d :: (rest2 ++ ['\r', '\n'])
            from rfl]
      rw [splitCRLF]
      rw [if_neg (by rintro ⟨h1, h2⟩; exact hc h1)]
      rw [show d :: (rest2 ++ ['\r', '\n']) = (d :: rest2) ++ ['\r', '\n'] from rfl,
          hrest]


lemma digit_not_ws (d : Char) (h : d.isDigit = true) :
    ¬(d = ' ' ∨ d = '\t' ∨ d = '\n' ∨ d = '\r') := by
  rintro (rfl | rfl | rfl | rfl) <;> exact absurd h (by decide)

lemma dumpScalar_head_not_ws (v : Scalar) (l : List Char) :
    headNotWs (dumpJson v.toJson ++ l) := by
  cases v with
  | null =>
    rw [show dumpJson Scalar.null.toJson = ['n', 'u', 'l', 'l'] from rfl]
    simp [headNotWs]
  | bool b =>
    cases b with
    | false =>
      rw [show dumpJson (Scalar.bool false).toJson = ['f', 'a', 'l', 's', 'e'] from rfl]
      simp [headNotWs]
    | true =>
      rw [show dumpJson (Scalar.bool true).toJson = ['t', 'r', 'u', 'e'] from rfl]
      simp [headNotWs]
  | str s =>
    rw [show dumpJson (Scalar.str s).toJson = dumpString s from rfl, dumpString]
    simp [headNotWs]
  | int n =>
    rw [show dumpJson (Scalar.int n).toJson = intRepr n from rfl, intRepr]
    split_ifs
    · simp [headNotWs]
    · obtain ⟨d, ds, hrepr⟩ : ∃ d ds, natRepr n.toNat = d :: ds := by
        cases hr : natRepr n.toNat with
        | nil => exact absurd hr (natRepr_ne_nil _)
        | cons d ds => exact ⟨d, ds, rfl⟩
      rw [hrepr]
      simp only [List.cons_append, headNotWs]
      exact digit_not_ws d (natRepr_all_digit _ d (by rw [hrepr]; simp))

lemma dumpFields_cons_head (kv : String × Json) (tl : List (String × Json)) :
    ∃ t, dumpFields (kv :: tl) = '"' :: t := by
  obtain ⟨k, v⟩ := kv
  cases tl with
  | nil =>
    refine ⟨(k.data.map escapeChar).flatten ++ ['"'] ++ ": ".data ++ dumpJson v, ?_⟩
    rw [show dumpFields [(k, v)] = dumpString k ++ ": ".data ++ dumpJson v from rfl,
        dumpString]
    simp [List.append_assoc]
  | cons y rest2 =>
    refine ⟨(k.data.map escapeChar).flatten ++ ['"'] ++ ": ".data ++ dumpJson v
        ++ ", ".data ++ dumpFields (y :: rest2), ?_⟩
    rw [show dumpFields ((k, v) :: y :: rest2)
          = dumpString k ++ ": ".data ++ dumpJson v ++ ", ".data
            ++ dumpFields (y :: rest2) from rfl, dumpString]
    simp [List.append_assoc]

lemma length_dumpFields_ge (fs : List (String × Json)) :
    fs.length ≤ (dumpFields fs).length := by
  induction fs with
  | nil => simp [show dumpFields ([] : List (String × Json)) = [] from rfl]
  | cons kv rest ih =>
    obtain ⟨k, v⟩ := kv
    cases rest with
    | nil =>
      rw [show dumpFields [(k, v)] = dumpString k ++ ": ".data ++ dumpJson v from rfl,
          dumpString]
      simp only [List.length_append, List.length_cons, List.length_singleton,
                 List.length_nil]
      omega
    | cons y rest2 =>
      rw [show dumpFields ((k, v) :: y :: rest2)
            = dumpString k ++ ": ".data ++ dumpJson v ++ ", ".data
              ++ dumpFields (y :: rest2) from rfl, dumpString]
      simp only [List.length_append, List.length_cons, List.length_singleton] at ih ⊢
      omega

lemma parseMembers_dumpFields (fs : List (String × Json)) :
    (∀ kv ∈ fs, ∃ v : Scalar, kv.2 = v.toJson) → fs ≠ [] →
    ∀ (fuel : Nat), fs.length + 1 ≤ fuel → ∀ (l : List Char),
      parseMembers fuel (dumpFields fs ++ '\x7d' :: l) = some (fs, l) := by
  induction fs with
  | nil => intro _ hne; exact absurd rfl hne
  | cons kv rest ih =>
    intro hflat _ fuel hfuel l
    obtain ⟨k, v⟩ := kv
    obtain ⟨sv, hv0⟩ := hflat (k, v) (by simp)
    have hv : v = sv.toJson := hv0
    obtain ⟨f0, rfl⟩ : ∃ f0, fuel = f0 + 1 := ⟨fuel - 1, by omega⟩
    obtain ⟨f1, rfl⟩ : ∃ f1, f0 = f1 + 1 := ⟨f0 - 1, by simp at hfuel; omega⟩
    cases rest with
    | nil =>
      rw [show dumpFields [(k, v)] = dumpString k ++ ": ".data ++ dumpJson v from rfl,
          dumpString,
          show ((": ".data : List Char)) = [':', ' '] from rfl]
      simp only [List.cons_append, List.append_assoc, List.singleton_append,
                 List.nil_append]
      rw [parseMembers]
      rw [if_pos (rfl : ('"' : Char) = '"')]
      rw [parseStringBody_dump k.data _
          (by have := length_le_flatten_escape k.data
              simp only [List.length_append, List.length_cons]
              omega) _]
      dsimp only []
      rw [skipWs_fix _ (by simp [headNotWs])]
      dsimp only []
      rw [if_pos (rfl : (':' : Char) = ':')]
      rw [show skipWs (' ' :: (dumpJson v ++ '\x7d' :: l))
            = skipWs (dumpJson v ++ '\x7d' :: l) by rw [skipWs]; simp]
      rw [hv]
      rw [skipWs_fix _ (dumpScalar_head_not_ws sv _)]
      rw [parseValue_scalar sv f1 _ (by simp [headNotDigit])]
      dsimp only []
      rw [skipWs_fix _ (by simp [headNotWs])]
      dsimp only []
      rw [if_neg (by decide), if_pos (rfl : ('\x7d' : Char) = '\x7d')]
    | cons y rest2 =>
      rw [show dumpFields ((k, v) :: y :: rest2)
            = dumpString k ++ ": ".data ++ dumpJson v ++ ", ".data
              ++ dumpFields (y :: rest2) from rfl,
          dumpString,
          show ((": ".data : List Char)) = [':', ' '] from rfl,
          show ((", ".data : List Char)) = [',', ' '] from rfl]
      simp only [List.cons_append, List.append_assoc, List.singleton_append,
                 List.nil_append]
      rw [parseMembers]
      rw [if_pos (rfl : ('"' : Char) = '"')]
      rw [parseStringBody_dump k.data _
          (by have := length_le_flatten_escape k.data
              simp only [List.length_append, List.length_cons]
              omega) _]
      dsimp only []
      rw [skipWs_fix _ (by simp [headNotWs])]
      dsimp only []
      rw [if_pos (rfl : (':' : Char) = ':')]
      rw [show skipWs (' ' :: (dumpJson v ++ ',' :: ' ' :: (dumpFields (y :: rest2)
            ++ '\x7d' :: l)))
          = skipWs (dumpJson v ++ ',' :: ' ' :: (dumpFields (y :: rest2) ++ '\x7d' :: l))
          by rw [skipWs]; simp]
      rw [hv]
      rw [skipWs_fix _ (dumpScalar_head_not_ws sv _)]
      rw [parseValue_scalar sv f1 _ (by simp [headNotDigit])]
      dsimp only []
      rw [skipWs_fix _ (by simp [headNotWs])]
      dsimp only []
      rw [if_pos (rfl : (',' : Char) = ',')]
      obtain ⟨t, ht⟩ := dumpFields_cons_head y rest2
      rw [show skipWs (' ' :: (dumpFields (y :: rest2) ++ '\x7d' :: l))
            = skipWs (dumpFields (y :: rest2) ++ '\x7d' :: l) by rw [skipWs]; simp]
      rw [ht]
      rw [skipWs_fix _ (by simp [headNotWs])]
      rw [← ht]
      rw [ih (fun x hx => hflat x (by simp [List.mem_cons] at hx ⊢; tauto))
          (by simp) (f1 + 1) (by simp at hfuel ⊢; omega) l]
      rfl

lemma parseValue_obj (fs : List (String × Json))
    (hflat : ∀ kv ∈ fs, ∃ v : Scalar, kv.2 = v.toJson) (hne : fs ≠ [])
    (fuel : Nat) (hfuel : fs.length + 2 ≤ fuel) (l : List Char) :
    parseValue fuel (dumpJson (.obj fs) ++ l) = some (.obj fs, l) := by
  obtain ⟨f0, rfl⟩ : ∃ f0, fuel = f0 + 1 := ⟨fuel - 1, by omega⟩
  rw [show dumpJson (.obj fs) = '\x7b' :: (dumpFields fs ++ ['\x7d']) from rfl]
  simp only [List.cons_append, List.append_assoc, List.singleton_append]
  rw [parseValue]
  rw [if_neg (by decide), if_neg (by decide), if_neg (by decide), if_neg (by decide),
      if_neg (by decide), if_pos (rfl : ('\x7b' : Char) = '\x7b')]
  obtain ⟨kv, tl, rfl⟩ : ∃ kv tl, fs = kv :: tl := by
    cases fs with
    | nil => exact absurd rfl hne
    | cons kv tl => exact ⟨kv, tl, rfl⟩
  obtain ⟨t, ht⟩ := dumpFields_cons_head kv tl
  rw [ht]
  simp only [List.cons_append, List.nil_append]
  rw [skipWs_fix _ (by simp [headNotWs])]
  dsimp only []
  rw [if_neg (by decide)]
  rw [show ('"' :: (t ++ '\x7d' :: l) : List Char) = ('"' :: t) ++ '\x7d' :: l from rfl]
  rw [← ht]
  rw [parseMembers_dumpFields (kv :: tl) hflat (by simp) f0 (by simp at hfuel ⊢; omega) l]
  rfl

lemma serializeFields_flat (k : CmdKind) (j : Int) :
    ∀ kv ∈ k.serializeBody ++ [("job", Json.int j)],
      ∃ v : Scalar, kv.2 = v.toJson := by
  intro kv hkv
  cases k
  all_goals simp only [CmdKind.serializeBody, CmdKind.extraFields, List.cons_append,
      List.nil_append, List.mem_cons, List.not_mem_nil, or_false] at hkv
  all_goals repeat' first
    | (rcases hkv with rfl | hkv)
    | subst hkv
  all_goals first
    | exact ⟨.str _, rfl⟩
    | exact ⟨.int _, rfl⟩
    | exact ⟨_, rfl⟩

lemma serializeFields_ne_nil (k : CmdKind) (j : Int) :
    k.serializeBody ++ [("job", Json.int j)] ≠ [] := by
  simp [CmdKind.serializeBody]

lemma dump_serialize_ne_cr (c : CmdState) :
    ∀ ch ∈ dumpJson c.serialize, ch ≠ '\r' := by
  intro ch hch
  rw [show dumpJson c.serialize
        = '\x7b' :: (dumpFields (c.kind.serializeBody
            ++ [("job", Json.int (c.job : Int))]) ++ ['\x7d'])
      from rfl] at hch
  simp only [List.mem_cons, List.mem_append, List.mem_singleton,
             List.not_mem_nil, or_false] at hch
  rcases hch with rfl | hch | rfl
  · decide
  · exact dumpFields_ne_cr _ (serializeFields_flat c.kind (c.job : Int)) ch hch
  · decide

lemma loads_dump_obj (fs : List (String × Json))
    (hflat : ∀ kv ∈ fs, ∃ v : Scalar, kv.2 = v.toJson) (hne : fs ≠ []) :
    loads (dumpJson (.obj fs)) = Except.ok (.obj fs) := by
  have hws : headNotWs (dumpJson (.obj fs)) := by
    rw [show dumpJson (.obj fs) = '\x7b' :: (dumpFields fs ++ ['\x7d']) from rfl]
    simp [headNotWs]
  have hlen := length_dumpFields_ge fs
  have hdlen : (dumpJson (.obj fs)).length = (dumpFields fs).length + 2 := by
    rw [show dumpJson (.obj fs) = '\x7b' :: (dumpFields fs ++ ['\x7d']) from rfl]
    simp
  have hp : parseValue ((dumpJson (.obj fs)).length + 1) (dumpJson (.obj fs) ++ [])
      = some (.obj fs, []) :=
    parseValue_obj fs hflat hne _ (by omega) []
  rw [List.append_nil] at hp
  rw [loads, skipWs_fix _ hws, hp]
  rfl

lemma serialize_lookup_job (c : CmdState) :
    c.serialize.lookup "job" = some (Json.int (c.job : Int)) := by
  obtain ⟨k, job, f1, f2, t, vs⟩ := c
  cases k <;> rfl

/-- C8: codec round-trip — for every command state, the encoder output
(the serialized object followed by CR LF) splits at the receive side
into exactly one complete frame with empty remainder, that frame
decodes back to exactly the serialized object, and the decoded object
carries the job id as its integer value. -/
theorem codec_roundtrip (c : CmdState) :
    splitCRLF (encode c.serialize) = ([dumpJson c.serialize], []) ∧
    loads (dumpJson c.serialize) = Except.ok c.serialize ∧
    c.serialize.lookup "job" = some (Json.int (c.job : Int)) :=
  ⟨splitCRLF_no_cr _ (dump_serialize_ne_cr c),
   loads_dump_obj _ (serializeFields_flat c.kind (c.job : Int))
     (serializeFields_ne_nil c.kind (c.job : Int)),
   serialize_lookup_job c⟩

/-- Witness for C6: with a pool of size 1, a first submit succeeds and
a second submit before completion fails with the capacity error,
leaving the state unchanged. -/
theorem submit_pool_exhausted_witness :
    ((Base.submit ⟨[], [], IdManager.init 1⟩ CmdKind.loadPinModes).1.manager.queue = []) ∧
    Base.submit (Base.submit ⟨[], [], IdManager.init 1⟩ CmdKind.loadPinModes).1
        (CmdKind.getSignal "A0")
      = ((Base.submit ⟨[], [], IdManager.init 1⟩ CmdKind.loadPinModes).1,
         Except.error "maximum number of jobs exceeded") :=
  ⟨rfl, submit_pool_exhausted _ _ rfl⟩

end Controllino
